import Mathlib

/-!
Verification of the schema reconciler in `auto_migration.py` of the
SkillsTown repository.

The reconciler is embedded shallowly:

* a database schema is a list of tables; a table has a name, a list of
  columns (name plus the SQL type/default clause it was created with) and a
  list of rows; a row is an association list from column names to nullable
  string values (`none` is SQL NULL);
* the behaviour of the surrounding database engine — whether a DDL
  statement raises, whether establishing the connection raises, and which
  value a newly added column takes in pre-existing rows — is an
  environment `DbEnv` supplied to the run;
* `run_auto_migration` executes the source's fixed sequence of
  `check_and_add_column` / `create_table_if_not_exists` calls followed by
  the legacy `UPDATE` backfill, in source order, threading the schema, the
  committed schema (the source calls `conn.commit()` after every executed
  statement), the emitted statements and the `changes_made` flag.
-/

namespace SkillsTown

/-- A column of a live table: its name and the type/default clause it
carries (the reconciler only ever compares names, never clauses). -/
structure SchemaColumn where
  name : String
  ctype : String
deriving DecidableEq, Repr

/-- A row of a table: an association list from column names to nullable
values; `none` models SQL NULL. -/
abbrev Row := List (String × Option String)

/-- A live table: its name, its columns and its stored rows. -/
structure DbTable where
  name : String
  cols : List SchemaColumn
  rows : List Row
deriving DecidableEq, Repr

/-- The introspectable state of the database: its list of tables. -/
abbrev Schema := List DbTable

/-- The behaviour of the database engine during one run: which DDL
statements raise (keyed by table name and column name, `""` for a CREATE
TABLE), whether the legacy UPDATE raises, whether connecting raises, and
the value a newly added column takes in each pre-existing row. -/
structure DbEnv where
  ddlFails : String → String → Bool
  updateFails : Bool
  connectFails : Bool
  defVal : String → String → Option String

/-- An engine in which every statement succeeds; `dv` is the value newly
added columns take in pre-existing rows. -/
def noFailEnv (dv : String → String → Option String) : DbEnv :=
  { ddlFails := fun _ _ => false, updateFails := false, connectFails := false, defVal := dv }

/-- Every newly added column reads as NULL in pre-existing rows. -/
def noneDefaults : String → String → Option String := fun _ _ => none

/-- A statement the reconciler executed (and committed). -/
inductive MigEvent where
  | created (table : String)
  | addedColumn (table col : String)
  | updatedLegacy
deriving DecidableEq, Repr

/-- Whether an executed statement changes the schema (the legacy UPDATE
only touches data). -/
def isSchemaChange : MigEvent → Bool
  | .created _ => true
  | .addedColumn _ _ => true
  | .updatedLegacy => false

/-- `inspector.get_table_names()`. -/
def tableNames (s : Schema) : List String := s.map (fun t => t.name)

/-- Look a table up by name (a live database has at most one per name). -/
def getTable : Schema → String → Option DbTable
  | [], _ => none
  | t :: rest, n => if t.name = n then some t else getTable rest n

/-- Names of the columns of a table. -/
def colNamesOf (t : DbTable) : List String := t.cols.map (fun c => c.name)

/-- `[col['name'] for col in inspector.get_columns(table_name)]`. -/
def getColumnNames (s : Schema) (n : String) : List String :=
  match getTable s n with
  | some t => colNamesOf t
  | none => []

/-- Rewrite every table of the given name with `f`. -/
def updateTable (s : Schema) (n : String) (f : DbTable → DbTable) : Schema :=
  s.map (fun t => if t.name = n then f t else t)

/-- Read a cell of a row; a missing key reads as NULL. -/
def cellVal : Row → String → Option String
  | [], _ => none
  | (k, v) :: rest, c => if k = c then v else cellVal rest c

/-- Whether a row stores the given key at all. -/
def hasKey : Row → String → Bool
  | [], _ => false
  | (k, _) :: rest, c => if k = c then true else hasKey rest c

/-- Write a cell of a row. -/
def setCell (r : Row) (c : String) (v : Option String) : Row :=
  if hasKey r c then r.map (fun p => if p.1 = c then (c, v) else p)
  else r ++ [(c, v)]

/-- Effect of `ALTER TABLE t ADD COLUMN cn cd` on one table: the column is
appended, and every stored row gains the cell value `v` the engine chose
from the clause's default. -/
def addColumnToTable (cn cd : String) (v : Option String) (t : DbTable) : DbTable :=
  { t with cols := t.cols ++ [⟨cn, cd⟩], rows := t.rows.map (fun r => r ++ [(cn, v)]) }

/-- Outcome of one helper call: the bool the Python function returns, the
schema afterwards, and the statements it executed (each followed by
`conn.commit()` in the source). -/
structure StepOut where
  changed : Bool
  schema : Schema
  events : List MigEvent
deriving Repr

/-- `check_and_add_column(conn, table_name, column_name, column_definition)`:
skip when the table is missing, skip when the column is already there,
otherwise execute the ALTER (which the engine may refuse: the exception is
caught and `False` returned) and commit. -/
def check_and_add_column (env : DbEnv) (s : Schema)
    (table_name column_name column_definition : String) : StepOut :=
  if table_name ∈ tableNames s then
    if column_name ∈ getColumnNames s table_name then ⟨false, s, []⟩
    else if env.ddlFails table_name column_name then ⟨false, s, []⟩
    else ⟨true,
      updateTable s table_name
        (addColumnToTable column_name column_definition (env.defVal table_name column_name)),
      [.addedColumn table_name column_name]⟩
  else ⟨false, s, []⟩

/-- `create_table_if_not_exists(conn, table_name, create_sql)`: skip when
the table exists, otherwise execute the CREATE (which the engine may
refuse: the exception is caught and `False` returned) and commit.
`declared` is the column list of the table's CREATE statement. -/
def create_table_if_not_exists (env : DbEnv) (s : Schema)
    (table_name : String) (declared : List SchemaColumn) : StepOut :=
  if table_name ∈ tableNames s then ⟨false, s, []⟩
  else if env.ddlFails table_name "" then ⟨false, s, []⟩
  else ⟨true, s ++ [⟨table_name, declared, []⟩], [.created table_name]⟩

/-- Whether the legacy UPDATE's WHERE clause matches the row:
`attempt_api_id IS NULL OR attempt_api_id = ''`. -/
def needsBackfill (r : Row) : Bool :=
  match cellVal r "attempt_api_id" with
  | none => true
  | some v => v = ""

/-- The value `'legacy-' || id::text` for the row (NULL when `id` is NULL,
as SQL concatenation propagates NULL). -/
def backfillValue (r : Row) : Option String :=
  match cellVal r "id" with
  | none => none
  | some i => some ("legacy-" ++ i)

/-- Effect of the legacy UPDATE on one row. -/
def backfillRow (r : Row) : Row :=
  if needsBackfill r then setCell r "attempt_api_id" (backfillValue r) else r

/-- Effect of the legacy UPDATE on one table: every row is rewritten. -/
def backfillTable (t : DbTable) : DbTable :=
  { t with rows := t.rows.map backfillRow }

/-- The `UPDATE skillstown_quiz_attempts SET attempt_api_id = ...` block:
it raises (and is caught with a warning) when the table is missing or the
engine refuses it, otherwise runs and commits. It never sets
`changes_made` in the source. -/
def runLegacyUpdate (env : DbEnv) (s : Schema) : StepOut :=
  if "skillstown_quiz_attempts" ∈ tableNames s then
    if env.updateFails then ⟨false, s, []⟩
    else ⟨false,
      updateTable s "skillstown_quiz_attempts" backfillTable,
      [.updatedLegacy]⟩
  else ⟨false, s, []⟩

/-- One step of `run_auto_migration`'s fixed sequence. -/
inductive MigStep where
  | addCol (table col cdef : String)
  | create (table : String) (declared : List SchemaColumn)
  | legacyUpdate
deriving DecidableEq, Repr

/-- Columns of `skillstown_user_courses_sql`. -/
def skillstown_user_courses_cols : List SchemaColumn :=
  [⟨"id", "SERIAL PRIMARY KEY"⟩,
   ⟨"user_id", "VARCHAR(36) NOT NULL REFERENCES students(id) ON DELETE CASCADE"⟩,
   ⟨"category", "VARCHAR(100) NOT NULL"⟩,
   ⟨"course_name", "VARCHAR(255) NOT NULL"⟩,
   ⟨"status", "VARCHAR(50) DEFAULT 'enrolled'"⟩,
   ⟨"created_at", "TIMESTAMP DEFAULT CURRENT_TIMESTAMP"⟩]

/-- Columns of `skillstown_course_details_sql`. -/
def skillstown_course_details_cols : List SchemaColumn :=
  [⟨"id", "SERIAL PRIMARY KEY"⟩,
   ⟨"user_course_id", "INTEGER NOT NULL REFERENCES skillstown_user_courses(id) ON DELETE CASCADE"⟩,
   ⟨"description", "TEXT"⟩,
   ⟨"progress_percentage", "INTEGER DEFAULT 0"⟩,
   ⟨"completed_at", "TIMESTAMP"⟩,
   ⟨"materials", "TEXT"⟩,
   ⟨"quiz_results", "TEXT"⟩,
   ⟨"created_at", "TIMESTAMP DEFAULT CURRENT_TIMESTAMP"⟩]

/-- Columns of `skillstown_user_profiles_sql`. -/
def skillstown_user_profiles_cols : List SchemaColumn :=
  [⟨"id", "SERIAL PRIMARY KEY"⟩,
   ⟨"user_id", "VARCHAR(36) NOT NULL REFERENCES students(id)"⟩,
   ⟨"cv_text", "TEXT"⟩,
   ⟨"job_description", "TEXT"⟩,
   ⟨"skills", "TEXT"⟩,
   ⟨"skill_analysis", "TEXT"⟩,
   ⟨"uploaded_at", "TIMESTAMP DEFAULT CURRENT_TIMESTAMP"⟩]

/-- Columns of `skillstown_course_quizzes_sql`. -/
def skillstown_course_quizzes_cols : List SchemaColumn :=
  [⟨"id", "SERIAL PRIMARY KEY"⟩,
   ⟨"user_course_id", "INTEGER NOT NULL REFERENCES skillstown_user_courses(id) ON DELETE CASCADE"⟩,
   ⟨"quiz_api_id", "VARCHAR(100) NOT NULL"⟩,
   ⟨"quiz_title", "VARCHAR(255)"⟩,
   ⟨"quiz_description", "TEXT"⟩,
   ⟨"questions_count", "INTEGER"⟩,
   ⟨"created_at", "TIMESTAMP DEFAULT CURRENT_TIMESTAMP"⟩]

/-- Columns of `skillstown_quiz_attempts_sql`. -/
def skillstown_quiz_attempts_cols : List SchemaColumn :=
  [⟨"id", "SERIAL PRIMARY KEY"⟩,
   ⟨"user_id", "VARCHAR(36) NOT NULL REFERENCES students(id) ON DELETE CASCADE"⟩,
   ⟨"course_quiz_id", "INTEGER NOT NULL REFERENCES skillstown_course_quizzes(id) ON DELETE CASCADE"⟩,
   ⟨"attempt_api_id", "VARCHAR(100) NOT NULL"⟩,
   ⟨"score", "INTEGER"⟩,
   ⟨"total_questions", "INTEGER"⟩,
   ⟨"correct_answers", "INTEGER"⟩,
   ⟨"feedback_strengths", "TEXT"⟩,
   ⟨"feedback_improvements", "TEXT"⟩,
   ⟨"user_answers", "TEXT"⟩,
   ⟨"completed_at", "TIMESTAMP DEFAULT CURRENT_TIMESTAMP"⟩]

/-- Columns of `skillstown_user_learning_progress_sql`. -/
def skillstown_user_learning_progress_cols : List SchemaColumn :=
  [⟨"id", "SERIAL PRIMARY KEY"⟩,
   ⟨"user_id", "VARCHAR(36) NOT NULL REFERENCES students(id)"⟩,
   ⟨"course_id", "VARCHAR(50) NOT NULL"⟩,
   ⟨"knowledge_areas", "TEXT DEFAULT '{}'"⟩,
   ⟨"weak_areas", "TEXT DEFAULT '[]'"⟩,
   ⟨"strong_areas", "TEXT DEFAULT '[]'"⟩,
   ⟨"recommended_topics", "TEXT DEFAULT '[]'"⟩,
   ⟨"learning_curve", "TEXT DEFAULT '[]'"⟩,
   ⟨"overall_progress", "INTEGER DEFAULT 0"⟩,
   ⟨"mastery_level", "VARCHAR(20) DEFAULT 'beginner'"⟩,
   ⟨"last_updated", "TIMESTAMP DEFAULT CURRENT_TIMESTAMP"⟩]

/-- The fixed statement sequence of `run_auto_migration`, in source
order: steps 1 through 8 and then the legacy UPDATE. -/
def migrationPlan : List MigStep :=
  [.addCol "students" "quiz_user_uuid" "VARCHAR(36) UNIQUE",
   .create "skillstown_user_courses" skillstown_user_courses_cols,
   .create "skillstown_course_details" skillstown_course_details_cols,
   .addCol "skillstown_course_details" "quiz_results" "TEXT",
   .addCol "skillstown_course_details" "progress_percentage" "INTEGER DEFAULT 0",
   .addCol "skillstown_course_details" "completed_at" "TIMESTAMP",
   .addCol "skillstown_course_details" "materials" "TEXT",
   .addCol "skillstown_course_details" "created_at" "TIMESTAMP DEFAULT CURRENT_TIMESTAMP",
   .create "skillstown_user_profiles" skillstown_user_profiles_cols,
   .create "skillstown_course_quizzes" skillstown_course_quizzes_cols,
   .create "skillstown_quiz_attempts" skillstown_quiz_attempts_cols,
   .addCol "skillstown_quiz_attempts" "attempt_api_id" "VARCHAR(100)",
   .addCol "skillstown_quiz_attempts" "course_quiz_id"
     "INTEGER REFERENCES skillstown_course_quizzes(id) ON DELETE CASCADE",
   .addCol "skillstown_quiz_attempts" "course_id" "INTEGER",
   .addCol "skillstown_quiz_attempts" "score" "INTEGER",
   .addCol "skillstown_quiz_attempts" "total_questions" "INTEGER",
   .addCol "skillstown_quiz_attempts" "correct_answers" "INTEGER",
   .addCol "skillstown_quiz_attempts" "feedback_strengths" "TEXT",
   .addCol "skillstown_quiz_attempts" "feedback_improvements" "TEXT",
   .addCol "skillstown_quiz_attempts" "user_answers" "TEXT",
   .addCol "skillstown_quiz_attempts" "completed_at" "TIMESTAMP DEFAULT CURRENT_TIMESTAMP",
   .create "skillstown_user_learning_progress" skillstown_user_learning_progress_cols,
   .addCol "skillstown_user_courses" "status" "VARCHAR(50) DEFAULT 'enrolled'",
   .addCol "skillstown_user_courses" "created_at" "TIMESTAMP DEFAULT CURRENT_TIMESTAMP",
   .addCol "skillstown_user_learning_progress" "knowledge_areas" "TEXT DEFAULT '{}'",
   .addCol "skillstown_user_learning_progress" "weak_areas" "TEXT DEFAULT '[]'",
   .addCol "skillstown_user_learning_progress" "strong_areas" "TEXT DEFAULT '[]'",
   .addCol "skillstown_user_learning_progress" "recommended_topics" "TEXT DEFAULT '[]'",
   .addCol "skillstown_user_learning_progress" "learning_curve" "TEXT DEFAULT '[]'",
   .addCol "skillstown_user_learning_progress" "overall_progress" "INTEGER DEFAULT 0",
   .addCol "skillstown_user_learning_progress" "mastery_level" "VARCHAR(20) DEFAULT 'beginner'",
   .addCol "skillstown_user_learning_progress" "last_updated" "TIMESTAMP DEFAULT CURRENT_TIMESTAMP",
   .addCol "skillstown_quiz_attempts" "attempt_api_id" "VARCHAR(100) NOT NULL DEFAULT ''",
   .legacyUpdate]

/-- Execute one step of the sequence. -/
def execStep (env : DbEnv) (s : Schema) : MigStep → StepOut
  | .addCol t c d => check_and_add_column env s t c d
  | .create t declared => create_table_if_not_exists env s t declared
  | .legacyUpdate => runLegacyUpdate env s

/-- The live schema together with its last committed state. -/
structure MigState where
  schema : Schema
  committed : Schema
deriving Repr

/-- Result of folding a step sequence: final state, executed statements
and the accumulated `changes_made` flag. -/
structure RunOut where
  state : MigState
  events : List MigEvent
  changes_made : Bool
deriving Repr

/-- State after one step: the helper calls `conn.commit()` exactly when it
executed a statement, so the committed schema advances exactly when events
were emitted. -/
def stepResultState (env : DbEnv) (ms : MigState) (st : MigStep) : MigState :=
  let out := execStep env ms.schema st
  ⟨out.schema, if out.events.isEmpty then ms.committed else out.schema⟩

/-- Fold the step sequence over the state, accumulating the executed
statements and the `changes_made` flag. -/
def runPlan (env : DbEnv) : List MigStep → MigState → RunOut
  | [], ms => ⟨ms, [], false⟩
  | st :: rest, ms =>
    let out := execStep env ms.schema st
    let tail := runPlan env rest (stepResultState env ms st)
    ⟨tail.state, out.events ++ tail.events, out.changed || tail.changes_made⟩

/-- Python's `str.startswith`. -/
def pyStartsWith (s pre : String) : Bool := pre.data.isPrefixOf s.data

/-- Python's `str.replace` on character lists: scan left to right, replace
every non-overlapping occurrence of `pat`. `fuel` bounds the recursion and
is always called with the list's length. -/
def pyReplaceAux (pat repl : List Char) : Nat → List Char → List Char
  | _, [] => []
  | 0, l => l
  | fuel + 1, a :: l =>
    if pat.isPrefixOf (a :: l) then
      repl ++ pyReplaceAux pat repl fuel (List.drop pat.length (a :: l))
    else a :: pyReplaceAux pat repl fuel l

/-- Python's `str.replace`: every non-overlapping occurrence of `pat` in
`s` is replaced by `repl`. -/
def pyReplace (s pat repl : String) : String :=
  ⟨pyReplaceAux pat.data repl.data s.data.length s.data⟩

/-- `get_database_url()`: the `DATABASE_URL` environment value, with
`postgres://` rewritten to `postgresql://` via `str.replace` when the
value starts with `postgres://`. -/
def get_database_url (environ : Option String) : Option String :=
  match environ with
  | none => none
  | some db_url =>
    if db_url = "" then some db_url
    else if pyStartsWith db_url "postgres://" then
      some (pyReplace db_url "postgres://" "postgresql://")
    else some db_url

/-- Result of `run_auto_migration`: the bool it returns, the final and
committed schemas, the executed statements and the `changes_made` flag. -/
structure MigResult where
  success : Bool
  schema : Schema
  committed : Schema
  events : List MigEvent
  changes_made : Bool
deriving Repr

/-- `run_auto_migration()`: bail out (returning `False`) when
`DATABASE_URL` is missing or falsy, or when connecting raises; otherwise
run the fixed sequence and return `True`. -/
def run_auto_migration (environ : Option String) (env : DbEnv) (s : Schema) : MigResult :=
  match get_database_url environ with
  | none => ⟨false, s, s, [], false⟩
  | some db_url =>
    if db_url = "" then ⟨false, s, s, [], false⟩
    else if env.connectFails then ⟨false, s, s, [], false⟩
    else
      let out := runPlan env migrationPlan ⟨s, s⟩
      ⟨true, out.state.schema, out.state.committed, out.events, out.changes_made⟩

/-- A usable database URL: present and non-empty. -/
def goodUrl : Option String → Bool
  | none => false
  | some u => !(u = "")

/-- A fixed unexceptional `DATABASE_URL` value used to instantiate
theorems that are not about URL handling. -/
def dbUrlOk : Option String := some "postgresql://localhost/skillstown"

/-! ### Basic lemmas about schema lookups and row cells -/

theorem getTable_cons (t : DbTable) (rest : Schema) (n : String) :
    getTable (t :: rest) n = if t.name = n then some t else getTable rest n := rfl

theorem cellVal_cons (p : String × Option String) (rest : Row) (c : String) :
    cellVal (p :: rest) c = if p.1 = c then p.2 else cellVal rest c := rfl

theorem hasKey_cons (p : String × Option String) (rest : Row) (c : String) :
    hasKey (p :: rest) c = if p.1 = c then true else hasKey rest c := rfl

theorem map_self_of_mem {α : Type} {l : List α} {f : α → α}
    (h : ∀ a ∈ l, f a = a) : l.map f = l := by
  induction l with
  | nil => rfl
  | cons a rest ih =>
    simp only [List.map_cons, h a (by simp)]
    rw [ih fun x hx => h x (by simp [hx])]

theorem getTable_name {s : Schema} {n : String} {T : DbTable}
    (h : getTable s n = some T) : T.name = n := by
  induction s with
  | nil => simp [getTable] at h
  | cons t rest ih =>
    by_cases ht : t.name = n
    · simp [getTable, ht] at h
      simpa [← h]
    · simp [getTable, ht] at h
      exact ih h

theorem mem_tableNames_iff {s : Schema} {n : String} :
    n ∈ tableNames s ↔ ∃ T, getTable s n = some T := by
  induction s with
  | nil => simp [tableNames, getTable]
  | cons t rest ih =>
    have hm : n ∈ tableNames (t :: rest) ↔ (n = t.name ∨ n ∈ tableNames rest) := by
      simp [tableNames]
    rw [hm, getTable_cons]
    by_cases ht : t.name = n
    · rw [if_pos ht]
      constructor
      · intro _
        exact ⟨t, rfl⟩
      · intro _
        exact Or.inl ht.symm
    · rw [if_neg ht]
      constructor
      · rintro (h | h)
        · exact absurd h.symm ht
        · exact ih.mp h
      · intro h
        exact Or.inr (ih.mpr h)

theorem getTable_append_some {s l : Schema} {n : String} {T : DbTable}
    (h : getTable s n = some T) : getTable (s ++ l) n = some T := by
  induction s with
  | nil => simp [getTable] at h
  | cons t rest ih =>
    by_cases ht : t.name = n
    · simpa [getTable, ht] using by simpa [getTable, ht] using h
    · simp [getTable, ht] at h ⊢
      exact ih h

theorem tableNames_append (s l : Schema) :
    tableNames (s ++ l) = tableNames s ++ tableNames l := by
  simp [tableNames]

theorem tableNames_updateTable {f : DbTable → DbTable}
    (hf : ∀ x, (f x).name = x.name) (s : Schema) (m : String) :
    tableNames (updateTable s m f) = tableNames s := by
  induction s with
  | nil => rfl
  | cons t rest ih =>
    by_cases ht : t.name = m
    · simp [tableNames, updateTable, ht, hf] at ih ⊢
      simpa [tableNames] using ih
    · simp [tableNames, updateTable, ht] at ih ⊢
      simpa [tableNames] using ih

theorem getTable_updateTable {f : DbTable → DbTable}
    (hf : ∀ x, (f x).name = x.name) (s : Schema) (m n : String) :
    getTable (updateTable s m f) n
      = (getTable s n).map (fun x => if x.name = m then f x else x) := by
  induction s with
  | nil => rfl
  | cons t rest ih =>
    simp only [updateTable, List.map_cons] at ih ⊢
    by_cases hm : t.name = m
    · rw [if_pos hm]
      by_cases ht : t.name = n
      · have hfn : (f t).name = n := by rw [hf]; exact ht
        rw [getTable_cons, if_pos hfn, getTable_cons, if_pos ht]
        simp [hm]
      · have hfn : ¬ (f t).name = n := by rw [hf]; exact ht
        rw [getTable_cons, if_neg hfn, getTable_cons, if_neg ht, ih]
    · rw [if_neg hm]
      by_cases ht : t.name = n
      · rw [getTable_cons, if_pos ht, getTable_cons, if_pos ht]
        simp [hm]
      · rw [getTable_cons, if_neg ht, getTable_cons, if_neg ht, ih]

theorem cellVal_append_ne {r : Row} {k c : String} {v : Option String}
    (h : k ≠ c) : cellVal (r ++ [(k, v)]) c = cellVal r c := by
  induction r with
  | nil => simp [cellVal_cons, cellVal, h]
  | cons p rest ih =>
    by_cases hp : p.1 = c
    · simp [cellVal_cons, hp]
    · simp [cellVal_cons, hp, ih]

theorem hasKey_eq_false_iff {r : Row} {c : String} :
    hasKey r c = false ↔ ∀ p ∈ r, p.1 ≠ c := by
  induction r with
  | nil => simp [hasKey]
  | cons p rest ih =>
    by_cases hp : p.1 = c
    · simp [hasKey_cons, hp]
    · simp [hasKey_cons, hp, ih]

theorem cellVal_map_set_self {r : Row} {c : String} {v : Option String}
    (hk : hasKey r c = true) :
    cellVal (r.map (fun p => if p.1 = c then (c, v) else p)) c = v := by
  induction r with
  | nil => simp [hasKey] at hk
  | cons p rest ih =>
    by_cases hp : p.1 = c
    · rw [List.map_cons, if_pos hp, cellVal_cons, if_pos (show (c, v).1 = c from rfl)]
    · rw [hasKey_cons, if_neg hp] at hk
      rw [List.map_cons, if_neg hp, cellVal_cons, if_neg hp, ih hk]

theorem cellVal_map_set_ne {r : Row} {a c : String} {v : Option String}
    (h : a ≠ c) :
    cellVal (r.map (fun p => if p.1 = a then (a, v) else p)) c = cellVal r c := by
  induction r with
  | nil => rfl
  | cons p rest ih =>
    by_cases hp : p.1 = a
    · rw [List.map_cons, if_pos hp, cellVal_cons, if_neg (show ¬ (a, v).1 = c from h),
        cellVal_cons, if_neg (show ¬ p.1 = c from fun hc => h (hp.symm.trans hc)), ih]
    · rw [List.map_cons, if_neg hp, cellVal_cons, cellVal_cons, ih]

theorem cellVal_setCell_self (r : Row) (c : String) (v : Option String) :
    cellVal (setCell r c v) c = v := by
  unfold setCell
  by_cases hk : hasKey r c
  · rw [if_pos hk, cellVal_map_set_self hk]
  · rw [if_neg hk]
    induction r with
    | nil => simp [cellVal_cons, cellVal]
    | cons p rest ih =>
      rw [hasKey_cons] at hk
      by_cases hp : p.1 = c
      · rw [if_pos hp] at hk
        exact absurd rfl hk
      · rw [if_neg hp] at hk
        rw [List.cons_append, cellVal_cons, if_neg hp, ih hk]

theorem cellVal_setCell_ne {r : Row} {a c : String} (v : Option String)
    (h : a ≠ c) : cellVal (setCell r a v) c = cellVal r c := by
  unfold setCell
  by_cases hk : hasKey r a
  · rw [if_pos hk, cellVal_map_set_ne h]
  · rw [if_neg hk]
    exact cellVal_append_ne h

theorem hasKey_append (r l : Row) (c : String) :
    hasKey (r ++ l) c = (hasKey r c || hasKey l c) := by
  induction r with
  | nil => simp [hasKey]
  | cons p rest ih =>
    by_cases hp : p.1 = c
    · rw [List.cons_append, hasKey_cons, if_pos hp, hasKey_cons, if_pos hp]
      simp
    · rw [List.cons_append, hasKey_cons, if_neg hp, hasKey_cons, if_neg hp, ih]

theorem hasKey_map_set (r : Row) (a : String) (v : Option String) :
    hasKey (r.map (fun p => if p.1 = a then (a, v) else p)) a = hasKey r a := by
  induction r with
  | nil => rfl
  | cons p rest ih =>
    by_cases hp : p.1 = a
    · rw [List.map_cons, if_pos hp, hasKey_cons, if_pos (show (a, v).1 = a from rfl),
        hasKey_cons, if_pos hp]
    · rw [List.map_cons, if_neg hp, hasKey_cons, if_neg hp, hasKey_cons, if_neg hp, ih]

theorem hasKey_setCell_self (r : Row) (a : String) (v : Option String) :
    hasKey (setCell r a v) a = true := by
  unfold setCell
  by_cases hk : hasKey r a
  · rw [if_pos hk, hasKey_map_set, hk]
  · rw [if_neg hk, hasKey_append, hasKey_cons, if_pos (show (a, v).1 = a from rfl)]
    simp

theorem setCell_setCell (r : Row) (a : String) (v w : Option String) :
    setCell (setCell r a v) a w = setCell r a w := by
  have h2 : hasKey (setCell r a v) a = true := hasKey_setCell_self r a v
  have h3 : setCell (setCell r a v) a w
      = (setCell r a v).map (fun p => if p.1 = a then (a, w) else p) := by
    rw [setCell, if_pos h2]
  by_cases hk : hasKey r a
  · have h1 : setCell r a v = r.map (fun p => if p.1 = a then (a, v) else p) := by
      rw [setCell, if_pos hk]
    rw [h3, h1, List.map_map, setCell, if_pos hk]
    apply List.map_congr_left
    intro p _
    by_cases hp : p.1 = a <;> simp [hp, Function.comp]
  · have h1 : setCell r a v = r ++ [(a, v)] := by rw [setCell, if_neg hk]
    rw [h3, h1, setCell, if_neg hk, List.map_append]
    congr 1
    · apply map_self_of_mem
      intro p hp
      have := (hasKey_eq_false_iff.mp (by simpa using hk)) p hp
      simp [this]
    · simp

/-! ### Lemmas about the legacy backfill -/

theorem needsBackfill_none {r : Row} (h : cellVal r "attempt_api_id" = none) :
    needsBackfill r = true := by
  unfold needsBackfill
  rw [h]

theorem needsBackfill_some {r : Row} {v : String}
    (h : cellVal r "attempt_api_id" = some v) :
    needsBackfill r = decide (v = "") := by
  unfold needsBackfill
  rw [h]

theorem backfillValue_id_none {r : Row} (h : cellVal r "id" = none) :
    backfillValue r = none := by
  unfold backfillValue
  rw [h]

theorem backfillValue_id_some {r : Row} {i : String} (h : cellVal r "id" = some i) :
    backfillValue r = some ("legacy-" ++ i) := by
  unfold backfillValue
  rw [h]

theorem legacy_ne_empty (i : String) : ("legacy-" ++ i) ≠ "" := by
  intro h
  have hlen := congrArg String.length h
  rw [String.length_append] at hlen
  have h7 : ("legacy-").length = 7 := rfl
  have h0 : ("" : String).length = 0 := rfl
  rw [h7, h0] at hlen
  omega

theorem backfillRow_of_not_needed {r : Row} (hn : needsBackfill r = false) :
    backfillRow r = r := by
  unfold backfillRow
  rw [if_neg (by rw [hn]; exact Bool.false_ne_true)]

theorem backfillRow_idem (r : Row) : backfillRow (backfillRow r) = backfillRow r := by
  by_cases hn : needsBackfill r = true
  · have h1 : backfillRow r = setCell r "attempt_api_id" (backfillValue r) := by
      unfold backfillRow
      rw [if_pos hn]
    rw [h1]
    cases hid : cellVal r "id" with
    | none =>
      have hbv : backfillValue r = none := backfillValue_id_none hid
      have hcell : cellVal (setCell r "attempt_api_id" (backfillValue r)) "attempt_api_id"
          = none := by
        rw [cellVal_setCell_self, hbv]
      have hn' : needsBackfill (setCell r "attempt_api_id" (backfillValue r)) = true :=
        needsBackfill_none hcell
      have hid' : cellVal (setCell r "attempt_api_id" (backfillValue r)) "id" = none := by
        rw [cellVal_setCell_ne _ (by decide), hid]
      unfold backfillRow
      rw [if_pos hn', backfillValue_id_none hid', setCell_setCell, hbv]
    | some i =>
      have hbv : backfillValue r = some ("legacy-" ++ i) := backfillValue_id_some hid
      have hcell : cellVal (setCell r "attempt_api_id" (backfillValue r)) "attempt_api_id"
          = some ("legacy-" ++ i) := by
        rw [cellVal_setCell_self, hbv]
      have hn' : needsBackfill (setCell r "attempt_api_id" (backfillValue r)) = false := by
        rw [needsBackfill_some hcell, decide_eq_false (legacy_ne_empty i)]
      exact backfillRow_of_not_needed hn'
  · have h1 : backfillRow r = r := by
      unfold backfillRow
      rw [if_neg hn]
    rw [h1]
    exact h1

/-! ### Unfolding equations for `runPlan` -/

theorem runPlan_nil (env : DbEnv) (ms : MigState) : runPlan env [] ms = ⟨ms, [], false⟩ := rfl

theorem runPlan_cons_state (env : DbEnv) (st : MigStep) (l : List MigStep) (ms : MigState) :
    (runPlan env (st :: l) ms).state = (runPlan env l (stepResultState env ms st)).state := rfl

theorem runPlan_cons_events (env : DbEnv) (st : MigStep) (l : List MigStep) (ms : MigState) :
    (runPlan env (st :: l) ms).events
      = (execStep env ms.schema st).events
        ++ (runPlan env l (stepResultState env ms st)).events := rfl

theorem runPlan_cons_changes (env : DbEnv) (st : MigStep) (l : List MigStep) (ms : MigState) :
    (runPlan env (st :: l) ms).changes_made
      = ((execStep env ms.schema st).changed
        || (runPlan env l (stepResultState env ms st)).changes_made) := rfl

theorem stepResultState_schema (env : DbEnv) (ms : MigState) (st : MigStep) :
    (stepResultState env ms st).schema = (execStep env ms.schema st).schema := rfl

/-! ### Per-step no-op behaviour on an already reconciled schema -/

/-- The step finds nothing to do in schema `s`: its guard makes it return
`False` without executing a statement, and — for the legacy UPDATE — its
row rewrite is the identity. -/
def stepDone (s : Schema) : MigStep → Prop
  | .addCol t c _ => t ∉ tableNames s ∨ c ∈ getColumnNames s t
  | .create t _ => t ∈ tableNames s
  | .legacyUpdate =>
      ∀ t ∈ s, t.name = "skillstown_quiz_attempts" → ∀ r ∈ t.rows, backfillRow r = r

theorem updateTable_eq_self {s : Schema} {n : String} {f : DbTable → DbTable}
    (h : ∀ t ∈ s, t.name = n → f t = t) : updateTable s n f = s := by
  unfold updateTable
  apply map_self_of_mem
  intro t ht
  by_cases htn : t.name = n
  · rw [if_pos htn, h t ht htn]
  · rw [if_neg htn]

theorem execStep_done (env : DbEnv) {s : Schema} {st : MigStep} (hd : stepDone s st) :
    (execStep env s st).changed = false ∧ (execStep env s st).schema = s ∧
      ∀ e ∈ (execStep env s st).events, isSchemaChange e = false := by
  cases st with
  | addCol t c d =>
    have hd' : t ∉ tableNames s ∨ c ∈ getColumnNames s t := hd
    simp only [execStep]
    unfold check_and_add_column
    rcases hd' with hd' | hd'
    · rw [if_neg hd']
      exact ⟨rfl, rfl, by simp⟩
    · by_cases hmem : t ∈ tableNames s
      · rw [if_pos hmem, if_pos hd']
        exact ⟨rfl, rfl, by simp⟩
      · rw [if_neg hmem]
        exact ⟨rfl, rfl, by simp⟩
  | create t declared =>
    have hd' : t ∈ tableNames s := hd
    simp only [execStep]
    unfold create_table_if_not_exists
    rw [if_pos hd']
    exact ⟨rfl, rfl, by simp⟩
  | legacyUpdate =>
    have hd' : ∀ t ∈ s, t.name = "skillstown_quiz_attempts" → ∀ r ∈ t.rows,
        backfillRow r = r := hd
    simp only [execStep]
    unfold runLegacyUpdate
    by_cases hmem : "skillstown_quiz_attempts" ∈ tableNames s
    · rw [if_pos hmem]
      by_cases hfail : env.updateFails = true
      · rw [if_pos hfail]
        exact ⟨rfl, rfl, by simp⟩
      · rw [if_neg hfail]
        refine ⟨rfl, ?_, by simp [isSchemaChange]⟩
        show updateTable s "skillstown_quiz_attempts" backfillTable = s
        apply updateTable_eq_self
        intro x hx hxn
        have hrows : x.rows.map backfillRow = x.rows :=
          map_self_of_mem (fun r hr => hd' x hx hxn r hr)
        show ({ x with rows := x.rows.map backfillRow } : DbTable) = x
        rw [hrows]
    · rw [if_neg hmem]
      exact ⟨rfl, rfl, by simp⟩

/-! ### How one run can change an already existing table -/

/-- Relation between an existing table before and after part of a run: the
name is unchanged, columns are only ever appended, and the rows are mapped
pointwise by a function that preserves every cell of a pre-existing
column, except possibly the `attempt_api_id` cell of a
`skillstown_quiz_attempts` row the legacy UPDATE matches. -/
structure TableEvol (T T' : DbTable) : Prop where
  name_eq : T'.name = T.name
  cols_prefix : T.cols <+: T'.cols
  rows_evol : ∃ f, T'.rows = T.rows.map f ∧ ∀ r c, c ∈ colNamesOf T →
      ¬(T.name = "skillstown_quiz_attempts" ∧ c = "attempt_api_id"
          ∧ needsBackfill r = true) →
      cellVal (f r) c = cellVal r c

theorem TableEvol.rfl (T : DbTable) : TableEvol T T :=
  ⟨Eq.refl _, List.prefix_refl _, ⟨id, (List.map_id _).symm, fun _ _ _ _ => Eq.refl _⟩⟩

theorem colNamesOf_subset_of_prefix {T T' : DbTable} (h : T.cols <+: T'.cols) :
    colNamesOf T ⊆ colNamesOf T' := by
  intro x hx
  exact ((h.sublist).map (fun c => c.name)).subset hx

theorem TableEvol.trans {T T' T'' : DbTable}
    (h1 : TableEvol T T') (h2 : TableEvol T' T'') : TableEvol T T'' := by
  obtain ⟨hn1, hc1, f, hf, hcell1⟩ := h1
  obtain ⟨hn2, hc2, g, hg, hcell2⟩ := h2
  refine ⟨hn2.trans hn1, hc1.trans hc2, g ∘ f, by rw [hg, hf, List.map_map], ?_⟩
  intro r c hc hex
  have hcT' : c ∈ colNamesOf T' := colNamesOf_subset_of_prefix hc1 hc
  show cellVal (g (f r)) c = cellVal r c
  by_cases hqa : T.name = "skillstown_quiz_attempts" ∧ c = "attempt_api_id"
  · obtain ⟨hname, hcol⟩ := hqa
    by_cases hnb : needsBackfill r = true
    · exact absurd ⟨hname, hcol, hnb⟩ hex
    have step1 : cellVal (f r) c = cellVal r c :=
      hcell1 r c hc (fun h => hnb h.2.2)
    have hceq : cellVal (f r) "attempt_api_id" = cellVal r "attempt_api_id" := by
      rw [← hcol]
      exact step1
    have hnb' : ¬ needsBackfill (f r) = true := by
      intro hbad
      apply hnb
      cases hv : cellVal r "attempt_api_id" with
      | none => exact needsBackfill_none hv
      | some v =>
        rw [needsBackfill_some (hceq.trans hv)] at hbad
        rw [needsBackfill_some hv]
        exact hbad
    have step2 : cellVal (g (f r)) c = cellVal (f r) c :=
      hcell2 (f r) c hcT' (fun h => hnb' h.2.2)
    rw [step2, step1]
  · have step1 : cellVal (f r) c = cellVal r c :=
      hcell1 r c hc (fun h => hqa ⟨h.1, h.2.1⟩)
    have step2 : cellVal (g (f r)) c = cellVal (f r) c :=
      hcell2 (f r) c hcT' (fun h => hqa ⟨hn1.symm.trans h.1, h.2.1⟩)
    rw [step2, step1]

theorem execStep_evol (env : DbEnv) (s : Schema) (st : MigStep) {n : String} {T : DbTable}
    (hT : getTable s n = some T) :
    ∃ T', getTable (execStep env s st).schema n = some T' ∧ TableEvol T T' := by
  cases st with
  | addCol t c d =>
    simp only [execStep]
    unfold check_and_add_column
    split
    · split
      · exact ⟨T, hT, .rfl T⟩
      · split
        · exact ⟨T, hT, .rfl T⟩
        · rename_i hmem hcol hfail
          have hfpres : ∀ x, (addColumnToTable c d (env.defVal t c) x).name = x.name :=
            fun x => Eq.refl _
          have hget := getTable_updateTable hfpres s t n
          rw [hT] at hget
          by_cases hTt : T.name = t
          · have hn : T.name = n := getTable_name hT
            refine ⟨addColumnToTable c d (env.defVal t c) T, ?_, ?_⟩
            · rw [hget]
              simp [hTt]
            · refine ⟨Eq.refl _, List.prefix_append _ _,
                ⟨fun r => r ++ [(c, env.defVal t c)], Eq.refl _, ?_⟩⟩
              intro r c0 hc0 _
              have htn : t = n := hTt ▸ hn
              have hcols : getColumnNames s t = colNamesOf T := by
                unfold getColumnNames
                rw [htn, hT]
              have hcne : c ≠ c0 := by
                intro hEq
                apply hcol
                rw [hcols, hEq]
                exact hc0
              exact cellVal_append_ne hcne
          · refine ⟨T, ?_, .rfl T⟩
            rw [hget]
            simp [hTt]
    · exact ⟨T, hT, .rfl T⟩
  | create t declared =>
    simp only [execStep]
    unfold create_table_if_not_exists
    split
    · exact ⟨T, hT, .rfl T⟩
    · split
      · exact ⟨T, hT, .rfl T⟩
      · exact ⟨T, getTable_append_some hT, .rfl T⟩
  | legacyUpdate =>
    simp only [execStep]
    unfold runLegacyUpdate
    split
    · split
      · exact ⟨T, hT, .rfl T⟩
      · have hfpres : ∀ x : DbTable, (backfillTable x).name = x.name :=
          fun x => Eq.refl _
        have hget := getTable_updateTable hfpres s "skillstown_quiz_attempts" n
        rw [hT] at hget
        by_cases hTq : T.name = "skillstown_quiz_attempts"
        · refine ⟨backfillTable T, ?_, ?_⟩
          · rw [hget]
            simp [hTq]
          · refine ⟨Eq.refl _, List.prefix_refl _, ⟨backfillRow, Eq.refl _, ?_⟩⟩
            intro r c hc hex
            by_cases hnb : needsBackfill r = true
            · have hcne : ¬ c = "attempt_api_id" := fun hce => hex ⟨hTq, hce, hnb⟩
              unfold backfillRow
              rw [if_pos hnb]
              exact cellVal_setCell_ne _ (fun h => hcne h.symm)
            · have hnbf : needsBackfill r = false := by
                revert hnb
                cases needsBackfill r <;> simp
              rw [backfillRow_of_not_needed hnbf]
        · refine ⟨T, ?_, .rfl T⟩
          rw [hget]
          simp [hTq]
    · exact ⟨T, hT, .rfl T⟩

theorem execStep_tableNames_mono {env : DbEnv} {s : Schema} {st : MigStep} {n : String}
    (h : n ∈ tableNames s) : n ∈ tableNames (execStep env s st).schema := by
  obtain ⟨T, hT⟩ := mem_tableNames_iff.mp h
  obtain ⟨T', hT', _⟩ := execStep_evol env s st hT
  exact mem_tableNames_iff.mpr ⟨T', hT'⟩

theorem execStep_col_mono {env : DbEnv} {s : Schema} {st : MigStep} {n c : String}
    (h : c ∈ getColumnNames s n) : c ∈ getColumnNames (execStep env s st).schema n := by
  unfold getColumnNames at h
  cases hT : getTable s n with
  | none =>
    rw [hT] at h
    exact absurd h (List.not_mem_nil c)
  | some T =>
    rw [hT] at h
    obtain ⟨T', hT', hev⟩ := execStep_evol env s st hT
    unfold getColumnNames
    rw [hT']
    exact colNamesOf_subset_of_prefix hev.cols_prefix h

/-- Which table a `create` step would create. -/
def isCreateOf : MigStep → String → Bool
  | .create t _, a => t = a
  | _, _ => false

theorem execStep_not_mem {env : DbEnv} {s : Schema} {st : MigStep} {n : String}
    (hnc : isCreateOf st n = false) (h : n ∉ tableNames s) :
    n ∉ tableNames (execStep env s st).schema := by
  cases st with
  | addCol t c d =>
    simp only [execStep]
    unfold check_and_add_column
    split
    · split
      · exact h
      · split
        · exact h
        · have hf1 : ∀ x : DbTable, (addColumnToTable c d (env.defVal t c) x).name = x.name :=
            fun x => Eq.refl _
          rw [tableNames_updateTable hf1 s t]
          exact h
    · exact h
  | create t declared =>
    have htn : t ≠ n := of_decide_eq_false hnc
    simp only [execStep]
    unfold create_table_if_not_exists
    split
    · exact h
    · split
      · exact h
      · rw [tableNames_append]
        intro hmem
        rcases List.mem_append.mp hmem with hmem | hmem
        · exact h hmem
        · have : n = t := by simpa [tableNames] using hmem
          exact htn this.symm
  | legacyUpdate =>
    simp only [execStep]
    unfold runLegacyUpdate
    split
    · split
      · exact h
      · have hf1 : ∀ x : DbTable, (backfillTable x).name = x.name := fun x => Eq.refl _
        rw [tableNames_updateTable hf1 s "skillstown_quiz_attempts"]
        exact h
    · exact h

/-! ### Preservation and establishment of `stepDone` along the plan -/

/-- A later step `st'` cannot spoil the no-op condition of `st`: the only
danger is a later creation of the very table whose column check found the
table absent, and the legacy UPDATE (whose condition mentions row data)
must be the last step. -/
def compatB : MigStep → MigStep → Bool
  | .addCol t _ _, .create t2 _ => decide (t2 ≠ t)
  | .addCol _ _ _, _ => true
  | .create _ _, _ => true
  | .legacyUpdate, _ => false

/-- Every step of the list is compatible with all steps after it. -/
def planGoodB : List MigStep → Bool
  | [] => true
  | st :: rest => rest.all (fun st2 => compatB st st2) && planGoodB rest

theorem stepDone_preserved {env : DbEnv} {s : Schema} {st st' : MigStep}
    (hc : compatB st st' = true) (hd : stepDone s st) :
    stepDone (execStep env s st').schema st := by
  cases st with
  | create t declared => exact execStep_tableNames_mono hd
  | addCol t c d =>
    rcases (hd : t ∉ tableNames s ∨ c ∈ getColumnNames s t) with hd | hd
    · left
      refine execStep_not_mem ?_ hd
      cases st' with
      | create t2 d2 =>
        have ht2 : t2 ≠ t := of_decide_eq_true hc
        exact decide_eq_false (fun hEq : t2 = t => ht2 hEq)
      | addCol _ _ _ => rfl
      | legacyUpdate => rfl
    · right
      exact execStep_col_mono hd
  | legacyUpdate => exact absurd hc Bool.false_ne_true

theorem execStep_establishes {env : DbEnv}
    (hf : ∀ t c, env.ddlFails t c = false) (hu : env.updateFails = false)
    (s : Schema) (st : MigStep) : stepDone (execStep env s st).schema st := by
  cases st with
  | addCol t c d =>
    show t ∉ tableNames (execStep env s (.addCol t c d)).schema
      ∨ c ∈ getColumnNames (execStep env s (.addCol t c d)).schema t
    simp only [execStep]
    unfold check_and_add_column
    by_cases hmem : t ∈ tableNames s
    · by_cases hcol : c ∈ getColumnNames s t
      · rw [if_pos hmem, if_pos hcol]
        exact Or.inr hcol
      · rw [if_pos hmem, if_neg hcol,
          if_neg (show ¬ env.ddlFails t c = true by rw [hf]; exact Bool.false_ne_true)]
        right
        obtain ⟨T, hT⟩ := mem_tableNames_iff.mp hmem
        have hfpres : ∀ x : DbTable, (addColumnToTable c d (env.defVal t c) x).name = x.name :=
          fun x => Eq.refl _
        have hget := getTable_updateTable hfpres s t t
        rw [hT] at hget
        have hTn : T.name = t := getTable_name hT
        unfold getColumnNames
        rw [hget, show Option.map
            (fun x => if x.name = t then addColumnToTable c d (env.defVal t c) x else x)
            (some T) = some (addColumnToTable c d (env.defVal t c) T) by simp [hTn]]
        show c ∈ colNamesOf (addColumnToTable c d (env.defVal t c) T)
        unfold colNamesOf addColumnToTable
        simp
    · rw [if_neg hmem]
      exact Or.inl hmem
  | create t declared =>
    show t ∈ tableNames (execStep env s (.create t declared)).schema
    simp only [execStep]
    unfold create_table_if_not_exists
    by_cases hmem : t ∈ tableNames s
    · rw [if_pos hmem]
      exact hmem
    · rw [if_neg hmem,
        if_neg (show ¬ env.ddlFails t "" = true by rw [hf]; exact Bool.false_ne_true)]
      show t ∈ tableNames (s ++ [⟨t, declared, []⟩])
      rw [tableNames_append]
      refine List.mem_append_right _ ?_
      simp [tableNames]
  | legacyUpdate =>
    show ∀ t ∈ (execStep env s .legacyUpdate).schema,
      t.name = "skillstown_quiz_attempts" → ∀ r ∈ t.rows, backfillRow r = r
    simp only [execStep]
    unfold runLegacyUpdate
    by_cases hmem : "skillstown_quiz_attempts" ∈ tableNames s
    · rw [if_pos hmem, if_neg (show ¬ env.updateFails = true by rw [hu]; exact Bool.false_ne_true)]
      intro t' ht' hname r hr
      unfold updateTable at ht'
      obtain ⟨x, hx, hxt⟩ := List.mem_map.mp ht'
      by_cases hxq : x.name = "skillstown_quiz_attempts"
      · rw [if_pos hxq] at hxt
        rw [← hxt] at hr
        have hr' : r ∈ x.rows.map backfillRow := hr
        obtain ⟨r0, _, hr0⟩ := List.mem_map.mp hr'
        rw [← hr0]
        exact backfillRow_idem r0
      · rw [if_neg hxq] at hxt
        rw [← hxt] at hname
        exact absurd hname hxq
    · rw [if_neg hmem]
      intro t' ht' hname r hr
      have : "skillstown_quiz_attempts" ∈ tableNames s := by
        rw [← hname]
        exact List.mem_map_of_mem _ ht'
      exact absurd this hmem

theorem runPlan_preserves_done {env : DbEnv} {st : MigStep} :
    ∀ (l : List MigStep) (ms : MigState),
      (∀ st' ∈ l, compatB st st' = true) → stepDone ms.schema st →
      stepDone (runPlan env l ms).state.schema st := by
  intro l
  induction l with
  | nil =>
    intro ms _ hd
    exact hd
  | cons h rest ih =>
    intro ms hcomp hd
    rw [runPlan_cons_state]
    refine ih _ (fun st' hst' => hcomp st' (by simp [hst'])) ?_
    rw [stepResultState_schema]
    exact stepDone_preserved (hcomp h (by simp)) hd

theorem runPlan_establishes_all {env : DbEnv}
    (hf : ∀ t c, env.ddlFails t c = false) (hu : env.updateFails = false) :
    ∀ (l : List MigStep) (ms : MigState), planGoodB l = true →
      ∀ st ∈ l, stepDone (runPlan env l ms).state.schema st := by
  intro l
  induction l with
  | nil =>
    intro ms _ st hst
    exact absurd hst (List.not_mem_nil st)
  | cons h rest ih =>
    intro ms hg st hst
    have hg' : rest.all (fun st2 => compatB h st2) = true ∧ planGoodB rest = true := by
      have : (rest.all (fun st2 => compatB h st2) && planGoodB rest) = true := hg
      exact ⟨(Bool.and_eq_true_iff.mp this).1, (Bool.and_eq_true_iff.mp this).2⟩
    rcases List.mem_cons.mp hst with hst | hst
    · subst hst
      rw [runPlan_cons_state]
      refine runPlan_preserves_done rest _ ?_ ?_
      · intro st' hst'
        exact (List.all_eq_true.mp hg'.1) st' hst'
      · rw [stepResultState_schema]
        exact execStep_establishes hf hu ms.schema st
    · rw [runPlan_cons_state]
      exact ih _ hg'.2 st hst

theorem runPlan_noop (env : DbEnv) :
    ∀ (l : List MigStep) (ms : MigState), (∀ st ∈ l, stepDone ms.schema st) →
      (runPlan env l ms).state.schema = ms.schema ∧
      (runPlan env l ms).changes_made = false ∧
      ∀ e ∈ (runPlan env l ms).events, isSchemaChange e = false := by
  intro l
  induction l with
  | nil =>
    intro ms _
    exact ⟨rfl, rfl, by simp [runPlan_nil]⟩
  | cons h rest ih =>
    intro ms hd
    have hdh := hd h (by simp)
    obtain ⟨hch, hsch, hev⟩ := execStep_done env hdh
    have hms' : (stepResultState env ms h).schema = ms.schema := by
      rw [stepResultState_schema, hsch]
    have htail := ih (stepResultState env ms h)
      (fun st hst => by rw [hms']; exact hd st (by simp [hst]))
    refine ⟨?_, ?_, ?_⟩
    · rw [runPlan_cons_state, htail.1, hms']
    · rw [runPlan_cons_changes, hch, htail.2.1]
      rfl
    · intro e he
      rw [runPlan_cons_events] at he
      rcases List.mem_append.mp he with he | he
      · exact hev e he
      · exact htail.2.2 e he

/-! ### Unfolding the run at the top level -/

theorem run_auto_migration_none_of_url {environ : Option String} {env : DbEnv} {s : Schema}
    (h : get_database_url environ = none) :
    run_auto_migration environ env s = ⟨false, s, s, [], false⟩ := by
  unfold run_auto_migration
  rw [h]

theorem run_auto_migration_empty_of_url {environ : Option String} {env : DbEnv} {s : Schema}
    (h : get_database_url environ = some "") :
    run_auto_migration environ env s = ⟨false, s, s, [], false⟩ := by
  unfold run_auto_migration
  rw [h]
  rfl

theorem run_auto_migration_connect_fail {environ : Option String} {env : DbEnv} {s : Schema}
    {u : String} (h : get_database_url environ = some u) (hne : ¬ u = "")
    (hc : env.connectFails = true) :
    run_auto_migration environ env s = ⟨false, s, s, [], false⟩ := by
  unfold run_auto_migration
  rw [h]
  show (if u = "" then _ else _) = _
  rw [if_neg hne, if_pos hc]

theorem run_auto_migration_eq (environ : Option String) (env : DbEnv) (s : Schema)
    (u : String) (hu : get_database_url environ = some u) (hne : ¬ u = "")
    (hc : env.connectFails = false) :
    run_auto_migration environ env s =
      ⟨true, (runPlan env migrationPlan ⟨s, s⟩).state.schema,
        (runPlan env migrationPlan ⟨s, s⟩).state.committed,
        (runPlan env migrationPlan ⟨s, s⟩).events,
        (runPlan env migrationPlan ⟨s, s⟩).changes_made⟩ := by
  unfold run_auto_migration
  rw [hu]
  show (if u = "" then _ else _) = _
  rw [if_neg hne, if_neg (by rw [hc]; exact Bool.false_ne_true)]

theorem run_events_cases (environ : Option String) (env : DbEnv) (s : Schema) :
    (run_auto_migration environ env s).events = [] ∨
    (run_auto_migration environ env s).events = (runPlan env migrationPlan ⟨s, s⟩).events := by
  cases hge : get_database_url environ with
  | none => exact Or.inl (by rw [run_auto_migration_none_of_url hge])
  | some u =>
    by_cases hne : u = ""
    · subst hne
      exact Or.inl (by rw [run_auto_migration_empty_of_url hge])
    · by_cases hcf : env.connectFails = true
      · exact Or.inl (by rw [run_auto_migration_connect_fail hge hne hcf])
      · right
        rw [run_auto_migration_eq environ env s u hge hne
          (by revert hcf; cases env.connectFails <;> simp)]

/-! ### Every executed statement is committed at once -/

theorem execStep_schema_eq_of_events_nil {env : DbEnv} {s : Schema} {st : MigStep}
    (h : (execStep env s st).events = []) : (execStep env s st).schema = s := by
  cases st with
  | addCol t c d =>
    revert h
    simp only [execStep]
    unfold check_and_add_column
    split
    · split
      · intro _
        rfl
      · split
        · intro _
          rfl
        · intro h
          exact absurd h (by simp)
    · intro _
      rfl
  | create t declared =>
    revert h
    simp only [execStep]
    unfold create_table_if_not_exists
    split
    · intro _
      rfl
    · split
      · intro _
        rfl
      · intro h
        exact absurd h (by simp)
  | legacyUpdate =>
    revert h
    simp only [execStep]
    unfold runLegacyUpdate
    split
    · split
      · intro _
        rfl
      · intro h
        exact absurd h (by simp)
    · intro _
      rfl

theorem runPlan_committed (env : DbEnv) :
    ∀ (l : List MigStep) (ms : MigState), ms.committed = ms.schema →
      (runPlan env l ms).state.committed = (runPlan env l ms).state.schema := by
  intro l
  induction l with
  | nil =>
    intro ms h
    exact h
  | cons hd rest ih =>
    intro ms h
    rw [runPlan_cons_state]
    apply ih
    show (if (execStep env ms.schema hd).events.isEmpty then ms.committed
      else (execStep env ms.schema hd).schema) = (execStep env ms.schema hd).schema
    by_cases he : (execStep env ms.schema hd).events.isEmpty = true
    · rw [if_pos he, h]
      exact (execStep_schema_eq_of_events_nil (List.isEmpty_iff.mp he)).symm
    · rw [if_neg he]

/-! ### Order of creation events -/

/-- Some `created a` event strictly precedes some `created b` event. -/
def createdBefore (evs : List MigEvent) (a b : String) : Prop :=
  ∃ i j, i < j ∧ evs.get? i = some (.created a) ∧ evs.get? j = some (.created b)

theorem runPlan_events_append (env : DbEnv) :
    ∀ (l1 l2 : List MigStep) (ms : MigState),
      (runPlan env (l1 ++ l2) ms).events
        = (runPlan env l1 ms).events
          ++ (runPlan env l2 (runPlan env l1 ms).state).events := by
  intro l1
  induction l1 with
  | nil =>
    intro l2 ms
    rfl
  | cons h rest ih =>
    intro l2 ms
    rw [List.cons_append, runPlan_cons_events, ih l2 (stepResultState env ms h),
      runPlan_cons_events, runPlan_cons_state, List.append_assoc]

theorem created_not_in_runPlan_events {env : DbEnv} {a : String} :
    ∀ (l : List MigStep) (ms : MigState),
      (∀ st ∈ l, isCreateOf st a = false) →
      MigEvent.created a ∉ (runPlan env l ms).events := by
  intro l
  induction l with
  | nil =>
    intro ms _ h
    rw [runPlan_nil] at h
    exact absurd h (List.not_mem_nil _)
  | cons h rest ih =>
    intro ms hno hmem
    rw [runPlan_cons_events] at hmem
    rcases List.mem_append.mp hmem with hmem | hmem
    · have hh := hno h (by simp)
      revert hmem
      cases h with
      | addCol t c d =>
        simp only [execStep]
        unfold check_and_add_column
        split
        · split
          · simp
          · split
            · simp
            · simp
        · simp
      | create t declared =>
        have ht : t ≠ a := of_decide_eq_false hh
        simp only [execStep]
        unfold create_table_if_not_exists
        split
        · simp
        · split
          · simp
          · intro hmem
            have h1 : MigEvent.created a ∈ [MigEvent.created t] := hmem
            have h2 : MigEvent.created a = MigEvent.created t := List.mem_singleton.mp h1
            injection h2 with h3
            exact ht h3.symm
      | legacyUpdate =>
        simp only [execStep]
        unfold runLegacyUpdate
        split
        · split <;> simp
        · simp
    · exact ih _ (fun st hst => hno st (by simp [hst])) hmem

theorem no_createdBefore_of_split (child parent : String) (childCols : List SchemaColumn)
    (A B : List MigStep)
    (hsplit : migrationPlan = A ++ (MigStep.create child childCols) :: B)
    (hA : ∀ st ∈ A, isCreateOf st child = false)
    (hB : ∀ st ∈ (MigStep.create child childCols) :: B, isCreateOf st parent = false) :
    ∀ (environ : Option String) (env : DbEnv) (s : Schema),
      ¬ createdBefore (run_auto_migration environ env s).events child parent := by
  intro environ env s hcb
  obtain ⟨i, j, hij, hi, hj⟩ := hcb
  rcases run_events_cases environ env s with hev | hev
  · rw [hev] at hi
    simp at hi
  · rw [hev, hsplit, runPlan_events_append] at hi hj
    have hchild_not : MigEvent.created child ∉ (runPlan env A ⟨s, s⟩).events :=
      created_not_in_runPlan_events A ⟨s, s⟩ hA
    have hparent_not : MigEvent.created parent ∉
        (runPlan env ((MigStep.create child childCols) :: B)
          (runPlan env A ⟨s, s⟩).state).events :=
      created_not_in_runPlan_events _ _ hB
    have hilen : (runPlan env A ⟨s, s⟩).events.length ≤ i := by
      by_contra hlt
      push_neg at hlt
      rw [List.get?_append hlt] at hi
      exact hchild_not (List.get?_mem hi)
    have hjlen : j < (runPlan env A ⟨s, s⟩).events.length := by
      by_contra hge2
      push_neg at hge2
      rw [List.get?_append_right hge2] at hj
      exact hparent_not (List.get?_mem hj)
    omega

/-! ### Table evolution through a whole run -/

theorem runPlan_evol {env : DbEnv} :
    ∀ (l : List MigStep) (ms : MigState) {n : String} {T : DbTable},
      getTable ms.schema n = some T →
      ∃ T', getTable (runPlan env l ms).state.schema n = some T' ∧ TableEvol T T' := by
  intro l
  induction l with
  | nil =>
    intro ms n T hT
    exact ⟨T, hT, .rfl T⟩
  | cons h rest ih =>
    intro ms n T hT
    obtain ⟨T1, hT1, hev1⟩ := execStep_evol env ms.schema h hT
    have hT1' : getTable (stepResultState env ms h).schema n = some T1 := by
      rw [stepResultState_schema]
      exact hT1
    obtain ⟨T2, hT2, hev2⟩ := ih (stepResultState env ms h) hT1'
    rw [runPlan_cons_state]
    exact ⟨T2, hT2, hev1.trans hev2⟩

set_option maxRecDepth 4000 in
theorem run_auto_migration_evol (environ : Option String) (env : DbEnv) (s : Schema)
    {n : String} {T : DbTable} (hT : getTable s n = some T) :
    ∃ T', getTable (run_auto_migration environ env s).schema n = some T'
      ∧ TableEvol T T' := by
  cases hge : get_database_url environ with
  | none =>
    rw [run_auto_migration_none_of_url hge]
    exact ⟨T, hT, .rfl T⟩
  | some u =>
    by_cases hne : u = ""
    · subst hne
      rw [run_auto_migration_empty_of_url hge]
      exact ⟨T, hT, .rfl T⟩
    · by_cases hcf : env.connectFails = true
      · rw [run_auto_migration_connect_fail hge hne hcf]
        exact ⟨T, hT, .rfl T⟩
      · simp only [run_auto_migration_eq environ env s u hge hne
          (by revert hcf; cases env.connectFails <;> simp)]
        exact runPlan_evol migrationPlan ⟨s, s⟩ hT

/-! ### The concrete plan is well ordered -/

set_option maxRecDepth 4000 in
theorem migrationPlan_good : planGoodB migrationPlan = true := by decide

/-! ### An up-to-date schema -/

/-- The guard of one step finds nothing to do: the table of a creation
step exists, and the column of a column step exists in its table. -/
def stepSatisfiedB (s : Schema) : MigStep → Bool
  | .create t _ => decide (t ∈ tableNames s)
  | .addCol t c _ => decide (t ∈ tableNames s) && decide (c ∈ getColumnNames s t)
  | .legacyUpdate => true

/-- No `skillstown_quiz_attempts` row has a NULL or empty
`attempt_api_id`. -/
def noLegacyRowsB (s : Schema) : Bool :=
  s.all (fun t => if t.name = "skillstown_quiz_attempts"
    then t.rows.all (fun r => !(needsBackfill r)) else true)

/-- The schema is already up to date: every table the reconciler manages
is present with every column it manages, and no row needs the legacy
backfill. -/
def upToDateB (s : Schema) : Bool :=
  migrationPlan.all (fun st => stepSatisfiedB s st) && noLegacyRowsB s

theorem stepDone_of_upToDate {s : Schema} (h : upToDateB s = true) :
    ∀ st ∈ migrationPlan, stepDone s st := by
  obtain ⟨h1, h2⟩ := Bool.and_eq_true_iff.mp h
  intro st hst
  have hsat := List.all_eq_true.mp h1 st hst
  cases st with
  | addCol t c d =>
    have hp : (decide (t ∈ tableNames s) && decide (c ∈ getColumnNames s t)) = true := hsat
    show t ∉ tableNames s ∨ c ∈ getColumnNames s t
    exact Or.inr (of_decide_eq_true (Bool.and_eq_true_iff.mp hp).2)
  | create t declared =>
    show t ∈ tableNames s
    exact of_decide_eq_true hsat
  | legacyUpdate =>
    intro t ht hname r hr
    have hall := List.all_eq_true.mp h2 t ht
    have hall' : (if t.name = "skillstown_quiz_attempts"
        then t.rows.all (fun r => !(needsBackfill r)) else true) = true := hall
    rw [if_pos hname] at hall'
    have hr' := List.all_eq_true.mp hall' r hr
    have hnb : needsBackfill r = false := by
      revert hr'
      cases needsBackfill r <;> simp
    exact backfillRow_of_not_needed hnb

/-! ### Characterising the URL rewrite -/

theorem pyReplaceAux_succ_cons (pat repl : List Char) (fuel : Nat) (a : Char) (l : List Char) :
    pyReplaceAux pat repl (fuel + 1) (a :: l)
      = if pat.isPrefixOf (a :: l)
        then repl ++ pyReplaceAux pat repl fuel (List.drop pat.length (a :: l))
        else a :: pyReplaceAux pat repl fuel l := rfl

theorem pyReplaceAux_fuel_irrelevant {pat repl : List Char} (hp : pat ≠ []) :
    ∀ (f1 : Nat) (l : List Char) (f2 : Nat), l.length ≤ f1 → l.length ≤ f2 →
      pyReplaceAux pat repl f1 l = pyReplaceAux pat repl f2 l := by
  intro f1
  induction f1 with
  | zero =>
    intro l f2 h1 h2
    have hl : l = [] := List.eq_nil_of_length_eq_zero (Nat.le_zero.mp h1)
    subst hl
    cases f2 <;> rfl
  | succ g ih =>
    intro l f2 h1 h2
    cases l with
    | nil => cases f2 <;> rfl
    | cons a t =>
      cases f2 with
      | zero => exact absurd h2 (by simp)
      | succ g2 =>
        rw [pyReplaceAux_succ_cons, pyReplaceAux_succ_cons]
        have hplen : 1 ≤ pat.length := by
          cases pat with
          | nil => exact absurd rfl hp
          | cons _ _ => simp
        have ht1 : t.length ≤ g := by
          simp only [List.length_cons] at h1
          omega
        have ht2 : t.length ≤ g2 := by
          simp only [List.length_cons] at h2
          omega
        by_cases hpre : pat.isPrefixOf (a :: t) = true
        · rw [if_pos hpre, if_pos hpre]
          congr 1
          apply ih
          · rw [List.length_drop]
            simp only [List.length_cons]
            omega
          · rw [List.length_drop]
            simp only [List.length_cons]
            omega
        · rw [if_neg hpre, if_neg hpre]
          congr 1
          exact ih t g2 ht1 ht2

theorem pyReplaceAux_prefix {pat repl rest : List Char} (hp : pat ≠ []) :
    pyReplaceAux pat repl (pat ++ rest).length (pat ++ rest)
      = repl ++ pyReplaceAux pat repl rest.length rest := by
  cases pat with
  | nil => exact absurd rfl hp
  | cons a p =>
    rw [List.cons_append,
      show (a :: (p ++ rest)).length = (p ++ rest).length + 1 from rfl,
      pyReplaceAux_succ_cons]
    have hpre : (a :: p).isPrefixOf (a :: (p ++ rest)) = true := by
      apply List.isPrefixOf_iff_prefix.mpr
      exact ⟨rest, by simp⟩
    rw [if_pos hpre]
    congr 1
    have hdrop : List.drop (a :: p).length (a :: (p ++ rest)) = rest := by
      show List.drop (p.length + 1) (a :: (p ++ rest)) = rest
      rw [List.drop_succ_cons, List.drop_left]
    rw [hdrop]
    apply pyReplaceAux_fuel_irrelevant hp
    · simp
    · exact Nat.le_refl _

theorem get_database_url_spec (u : String) :
    (pyStartsWith u "postgres://" = false → get_database_url (some u) = some u) ∧
    (pyStartsWith u "postgres://" = true →
      ∃ rest : List Char, u.data = "postgres://".data ++ rest ∧
        get_database_url (some u)
          = some ⟨"postgresql://".data
              ++ pyReplaceAux "postgres://".data "postgresql://".data rest.length rest⟩) := by
  constructor
  · intro h
    unfold get_database_url
    show (if u = "" then _ else _) = _
    by_cases hemp : u = ""
    · rw [if_pos hemp]
    · rw [if_neg hemp, if_neg (by rw [h]; exact Bool.false_ne_true)]
  · intro h
    have hpre : "postgres://".data.isPrefixOf u.data = true := h
    obtain ⟨rest, hrest⟩ := (List.isPrefixOf_iff_prefix.mp hpre)
    refine ⟨rest, hrest.symm, ?_⟩
    have hne : ¬ u = "" := by
      intro hEq
      have hlen := congrArg List.length hrest
      rw [hEq] at hlen
      simp at hlen
    unfold get_database_url
    show (if u = "" then _ else _) = _
    rw [if_neg hne, if_pos h]
    unfold pyReplace
    congr 1
    rw [show ("postgresql://" : String).data = ("postgresql://" : String).data from rfl]
    have hgoal : pyReplaceAux "postgres://".data "postgresql://".data u.data.length u.data
        = "postgresql://".data
          ++ pyReplaceAux "postgres://".data "postgresql://".data rest.length rest := by
      rw [← hrest]
      exact pyReplaceAux_prefix (by decide)
    rw [hgoal]

/-! ### Concrete fixtures -/

/-- An engine that refuses the CREATE of `skillstown_course_details` and
accepts everything else. -/
def failDetailsEnv : DbEnv :=
  { ddlFails := fun t c => decide (t = "skillstown_course_details") && decide (c = ""),
    updateFails := false, connectFails := false, defVal := noneDefaults }

/-- An engine that refuses the CREATE of `skillstown_user_courses` and
accepts everything else. -/
def failCoursesEnv : DbEnv :=
  { ddlFails := fun t c => decide (t = "skillstown_user_courses") && decide (c = ""),
    updateFails := false, connectFails := false, defVal := noneDefaults }

/-- A `students` table that already carries `quiz_user_uuid`. -/
def studentsTable : DbTable :=
  ⟨"students", [⟨"id", "VARCHAR(36)"⟩, ⟨"quiz_user_uuid", "VARCHAR(36) UNIQUE"⟩], []⟩

/-- A schema in which every managed table and column already exists. -/
def fullSchema : Schema :=
  [studentsTable,
   ⟨"skillstown_user_courses", skillstown_user_courses_cols, []⟩,
   ⟨"skillstown_course_details", skillstown_course_details_cols, []⟩,
   ⟨"skillstown_user_profiles", skillstown_user_profiles_cols, []⟩,
   ⟨"skillstown_course_quizzes", skillstown_course_quizzes_cols, []⟩,
   ⟨"skillstown_quiz_attempts",
     skillstown_quiz_attempts_cols ++ [⟨"course_id", "INTEGER"⟩], []⟩,
   ⟨"skillstown_user_learning_progress", skillstown_user_learning_progress_cols, []⟩]

/-- A pre-existing `skillstown_quiz_attempts` table holding one row whose
`attempt_api_id` is the empty string. -/
def qaLegacyTable : DbTable :=
  ⟨"skillstown_quiz_attempts",
   [⟨"id", "SERIAL PRIMARY KEY"⟩, ⟨"attempt_api_id", "VARCHAR(100)"⟩],
   [[("id", some "7"), ("attempt_api_id", some "")]]⟩

/-! ### Claim theorems -/

set_option maxRecDepth 4000 in
set_option maxHeartbeats 2000000 in
/-- C1: Idempotence of the reconciler. For every schema state `s`, running
the migration once (with a database URL present and an engine in which
every statement succeeds) and then a second time with no external schema
change yields the same final schema as the single run; the second run
reports `changes_made = false` — every `check_and_add_column` and
`create_table_if_not_exists` call returned `False` — and executes no
schema-changing statement. -/
theorem run_auto_migration_idempotent (dv dv2 : String → String → Option String)
    (s : Schema) :
    (run_auto_migration dbUrlOk (noFailEnv dv2)
        (run_auto_migration dbUrlOk (noFailEnv dv) s).schema).schema
      = (run_auto_migration dbUrlOk (noFailEnv dv) s).schema ∧
    (run_auto_migration dbUrlOk (noFailEnv dv2)
        (run_auto_migration dbUrlOk (noFailEnv dv) s).schema).changes_made = false ∧
    ∀ e ∈ (run_auto_migration dbUrlOk (noFailEnv dv2)
        (run_auto_migration dbUrlOk (noFailEnv dv) s).schema).events,
      isSchemaChange e = false := by
  have hurl : get_database_url dbUrlOk = some "postgresql://localhost/skillstown" := rfl
  have hne : ¬ ("postgresql://localhost/skillstown" = "") := by decide
  have hf1 : ∀ t c, (noFailEnv dv).ddlFails t c = false := fun t c => rfl
  have hu1 : (noFailEnv dv).updateFails = false := rfl
  have hc1 : (noFailEnv dv).connectFails = false := rfl
  have hc2 : (noFailEnv dv2).connectFails = false := rfl
  have h1 : (run_auto_migration dbUrlOk (noFailEnv dv) s).schema
      = (runPlan (noFailEnv dv) migrationPlan ⟨s, s⟩).state.schema := by
    simp only [run_auto_migration_eq dbUrlOk (noFailEnv dv) s _ hurl hne hc1]
  generalize hS1 : (run_auto_migration dbUrlOk (noFailEnv dv) s).schema = S1
  have hall : ∀ st ∈ migrationPlan, stepDone S1 st := by
    rw [← hS1, h1]
    exact runPlan_establishes_all hf1 hu1 migrationPlan ⟨s, s⟩ migrationPlan_good
  have hnoop := runPlan_noop (noFailEnv dv2) migrationPlan ⟨S1, S1⟩
    (fun st hst => hall st hst)
  refine ⟨?_, ?_, ?_⟩
  · simp only [run_auto_migration_eq dbUrlOk (noFailEnv dv2) S1 _ hurl hne hc2]
    exact hnoop.1
  · simp only [run_auto_migration_eq dbUrlOk (noFailEnv dv2) S1 _ hurl hne hc2]
    exact hnoop.2.1
  · intro e he
    simp only [run_auto_migration_eq dbUrlOk (noFailEnv dv2) S1 _ hurl hne hc2] at he
    exact hnoop.2.2 e he

set_option maxRecDepth 10000 in
/-- C2 counterexample: with an engine that refuses the CREATE of
`skillstown_course_details` mid-run, the table created earlier in the same
invocation (`skillstown_user_courses`) remains committed at the end of the
run and the run even reports success — nothing is rolled back, refuting
the claim that all DDL runs in one transaction whose earlier changes are
rolled back on a mid-run failure. -/
theorem migration_no_rollback_cex :
    failDetailsEnv.ddlFails "skillstown_course_details" "" = true ∧
    "skillstown_course_details"
      ∉ tableNames (run_auto_migration dbUrlOk failDetailsEnv []).committed ∧
    "skillstown_user_courses"
      ∈ tableNames (run_auto_migration dbUrlOk failDetailsEnv []).committed ∧
    (run_auto_migration dbUrlOk failDetailsEnv []).success = true := by
  refine ⟨by decide, by decide, by decide, by decide⟩

/-- C2 amended: the reconciler wraps nothing in a transaction — each
executed DDL statement is committed immediately (`conn.commit()` after
every execute), so in every execution, including those in which later
statements fail, the committed state at the end of the run equals the
final schema: every change made before a failure stays committed. -/
theorem migration_committed_eq_schema (environ : Option String) (env : DbEnv) (s : Schema) :
    (run_auto_migration environ env s).committed
      = (run_auto_migration environ env s).schema := by
  cases hge : get_database_url environ with
  | none => rw [run_auto_migration_none_of_url hge]
  | some u =>
    by_cases hne : u = ""
    · subst hne
      rw [run_auto_migration_empty_of_url hge]
    · by_cases hcf : env.connectFails = true
      · rw [run_auto_migration_connect_fail hge hne hcf]
      · simp only [run_auto_migration_eq environ env s u hge hne
          (by revert hcf; cases env.connectFails <;> simp)]
        exact runPlan_committed env migrationPlan ⟨s, s⟩ rfl

set_option maxRecDepth 10000 in
/-- C3 counterexample: with an engine that refuses the CREATE of
`skillstown_user_courses`, the statement fails (the table is absent at the
end), yet `run_auto_migration` still returns `True`, refuting the claim
that a DDL failure surfaces as a failure result. -/
theorem ddl_failure_still_returns_true_cex :
    failCoursesEnv.ddlFails "skillstown_user_courses" "" = true ∧
    "skillstown_user_courses"
      ∉ tableNames (run_auto_migration dbUrlOk failCoursesEnv []).schema ∧
    (run_auto_migration dbUrlOk failCoursesEnv []).success = true := by
  refine ⟨by decide, by decide, by decide⟩

/-- C3 amended: a DDL failure inside `check_and_add_column` or
`create_table_if_not_exists` is caught there and treated as "no change";
the run continues with the remaining steps and still returns `True`.
`run_auto_migration` returns `False` only when `DATABASE_URL` is missing
or falsy, or when connecting to the database fails. -/
theorem run_auto_migration_success_of_connection (environ : Option String) (env : DbEnv)
    (s : Schema) (hg : goodUrl (get_database_url environ) = true)
    (hc : env.connectFails = false) :
    (run_auto_migration environ env s).success = true := by
  cases hge : get_database_url environ with
  | none =>
    rw [hge] at hg
    exact absurd hg (by decide)
  | some u =>
    rw [hge] at hg
    have hne : ¬ u = "" := by
      intro hEq
      rw [hEq] at hg
      exact absurd hg (by decide)
    simp only [run_auto_migration_eq environ env s u hge hne hc]

set_option maxRecDepth 10000 in
/-- Witness for the amended C3 theorem at a concrete input. -/
theorem run_auto_migration_success_of_connection_witness :
    (run_auto_migration dbUrlOk failCoursesEnv fullSchema).success = true :=
  run_auto_migration_success_of_connection dbUrlOk failCoursesEnv fullSchema (by decide) rfl

set_option maxRecDepth 10000 in
/-- C4 counterexample: a pre-existing `skillstown_quiz_attempts` row whose
`attempt_api_id` is the empty string has that cell rewritten to
`legacy-7` by the reconciler's legacy UPDATE, refuting the claim that no
pre-existing cell value is ever altered. -/
theorem legacy_update_rewrites_existing_row_cex :
    (getTable [qaLegacyTable] "skillstown_quiz_attempts").map
        (fun T => T.rows.map (fun r => cellVal r "attempt_api_id")) = some [some ""] ∧
    (getTable (run_auto_migration dbUrlOk (noFailEnv noneDefaults) [qaLegacyTable]).schema
        "skillstown_quiz_attempts").map
        (fun T => T.rows.map (fun r => cellVal r "attempt_api_id"))
      = some [some "legacy-7"] := by
  refine ⟨by decide, by decide⟩

/-- C4 amended: for every table present before the run, the run keeps the
table, keeps its row count (no row is inserted or deleted), and keeps the
value of every cell of a pre-existing column — except that on
`skillstown_quiz_attempts` the backfill UPDATE may rewrite the
`attempt_api_id` cell of rows where it was NULL or the empty string. -/
theorem migration_preserves_existing_rows (environ : Option String) (env : DbEnv)
    (s : Schema) (n : String) (T : DbTable) (hT : getTable s n = some T) :
    ∃ T', getTable (run_auto_migration environ env s).schema n = some T' ∧
      T'.rows.length = T.rows.length ∧
      ∃ f, T'.rows = T.rows.map f ∧
        ∀ r c, c ∈ colNamesOf T →
          ¬(n = "skillstown_quiz_attempts" ∧ c = "attempt_api_id"
              ∧ needsBackfill r = true) →
          cellVal (f r) c = cellVal r c := by
  obtain ⟨T', hT', hev⟩ := run_auto_migration_evol environ env s hT
  obtain ⟨f, hf, hcell⟩ := hev.rows_evol
  have hTn : T.name = n := getTable_name hT
  refine ⟨T', hT', by rw [hf, List.length_map], f, hf, ?_⟩
  intro r c hc hex
  exact hcell r c hc (fun h => hex ⟨hTn.symm.trans h.1, h.2⟩)

/-- Witness for the amended C4 theorem at a concrete input. -/
theorem migration_preserves_existing_rows_witness :
    ∃ T', getTable (run_auto_migration dbUrlOk (noFailEnv noneDefaults)
        [studentsTable]).schema "students" = some T' ∧
      T'.rows.length = studentsTable.rows.length ∧
      ∃ f, T'.rows = studentsTable.rows.map f ∧
        ∀ r c, c ∈ colNamesOf studentsTable →
          ¬("students" = "skillstown_quiz_attempts" ∧ c = "attempt_api_id"
              ∧ needsBackfill r = true) →
          cellVal (f r) c = cellVal r c :=
  migration_preserves_existing_rows dbUrlOk (noFailEnv noneDefaults) [studentsTable]
    "students" studentsTable rfl

set_option maxRecDepth 10000 in
/-- C5 counterexample: starting from an empty database, the run never
creates the `students` table (the quiz_user_uuid column check skips a
missing table and no CREATE statement exists for it), refuting the claim
that after one run every declared table — including
`students.quiz_user_uuid` — exists. -/
theorem empty_db_students_missing_cex :
    "students" ∉ tableNames (run_auto_migration dbUrlOk (noFailEnv noneDefaults) []).schema := by
  decide

set_option maxRecDepth 10000 in
/-- C5 amended: starting from an empty database, one run (with every
statement accepted by the engine) returns success and creates all six
`skillstown_*` tables with every column declared for them — including the
post-hoc `course_id` column on `skillstown_quiz_attempts` — while the
`students` table (for which the reconciler has no CREATE statement) is
not created, so its `quiz_user_uuid` column is not added. -/
theorem empty_db_creates_all_skillstown_tables :
    (run_auto_migration dbUrlOk (noFailEnv noneDefaults) []).success = true ∧
    tableNames (run_auto_migration dbUrlOk (noFailEnv noneDefaults) []).schema =
      ["skillstown_user_courses", "skillstown_course_details", "skillstown_user_profiles",
       "skillstown_course_quizzes", "skillstown_quiz_attempts",
       "skillstown_user_learning_progress"] ∧
    "students" ∉ tableNames (run_auto_migration dbUrlOk (noFailEnv noneDefaults) []).schema ∧
    getColumnNames (run_auto_migration dbUrlOk (noFailEnv noneDefaults) []).schema
      "skillstown_user_courses"
      = ["id", "user_id", "category", "course_name", "status", "created_at"] ∧
    getColumnNames (run_auto_migration dbUrlOk (noFailEnv noneDefaults) []).schema
      "skillstown_course_details"
      = ["id", "user_course_id", "description", "progress_percentage", "completed_at",
         "materials", "quiz_results", "created_at"] ∧
    getColumnNames (run_auto_migration dbUrlOk (noFailEnv noneDefaults) []).schema
      "skillstown_user_profiles"
      = ["id", "user_id", "cv_text", "job_description", "skills", "skill_analysis",
         "uploaded_at"] ∧
    getColumnNames (run_auto_migration dbUrlOk (noFailEnv noneDefaults) []).schema
      "skillstown_course_quizzes"
      = ["id", "user_course_id", "quiz_api_id", "quiz_title", "quiz_description",
         "questions_count", "created_at"] ∧
    getColumnNames (run_auto_migration dbUrlOk (noFailEnv noneDefaults) []).schema
      "skillstown_quiz_attempts"
      = ["id", "user_id", "course_quiz_id", "attempt_api_id", "score", "total_questions",
         "correct_answers", "feedback_strengths", "feedback_improvements", "user_answers",
         "completed_at", "course_id"] ∧
    getColumnNames (run_auto_migration dbUrlOk (noFailEnv noneDefaults) []).schema
      "skillstown_user_learning_progress"
      = ["id", "user_id", "course_id", "knowledge_areas", "weak_areas", "strong_areas",
         "recommended_topics", "learning_curve", "overall_progress", "mastery_level",
         "last_updated"] := by
  refine ⟨by decide, by decide, by decide, by decide, by decide, by decide, by decide,
    by decide, by decide⟩

set_option maxRecDepth 10000 in
/-- C6: Dependency ordering. In every execution of `run_auto_migration`
(any environment, any starting schema), among the emitted CREATE events a
table that references another managed table is never created before its
referenced table: `skillstown_course_details` and
`skillstown_course_quizzes` never precede `skillstown_user_courses`, and
`skillstown_quiz_attempts` never precedes `skillstown_course_quizzes`. -/
theorem migration_dependency_order (environ : Option String) (env : DbEnv) (s : Schema) :
    ¬ createdBefore (run_auto_migration environ env s).events
        "skillstown_course_details" "skillstown_user_courses" ∧
    ¬ createdBefore (run_auto_migration environ env s).events
        "skillstown_course_quizzes" "skillstown_user_courses" ∧
    ¬ createdBefore (run_auto_migration environ env s).events
        "skillstown_quiz_attempts" "skillstown_course_quizzes" := by
  refine ⟨?_, ?_, ?_⟩
  · exact no_createdBefore_of_split "skillstown_course_details" "skillstown_user_courses"
      skillstown_course_details_cols (migrationPlan.take 2) (migrationPlan.drop 3)
      (by decide) (by decide) (by decide) environ env s
  · exact no_createdBefore_of_split "skillstown_course_quizzes" "skillstown_user_courses"
      skillstown_course_quizzes_cols (migrationPlan.take 9) (migrationPlan.drop 10)
      (by decide) (by decide) (by decide) environ env s
  · exact no_createdBefore_of_split "skillstown_quiz_attempts" "skillstown_course_quizzes"
      skillstown_quiz_attempts_cols (migrationPlan.take 10) (migrationPlan.drop 11)
      (by decide) (by decide) (by decide) environ env s

/-- C7: No-op success. For every schema that is already up to date (every
managed table present with every managed column, and no
`skillstown_quiz_attempts` row with a NULL or empty `attempt_api_id`),
the run returns success, leaves the schema exactly as it was, reports
`changes_made = false`, and executes no schema-changing statement. -/
theorem up_to_date_schema_noop_success (dv : String → String → Option String)
    (s : Schema) (h : upToDateB s = true) :
    (run_auto_migration dbUrlOk (noFailEnv dv) s).success = true ∧
    (run_auto_migration dbUrlOk (noFailEnv dv) s).schema = s ∧
    (run_auto_migration dbUrlOk (noFailEnv dv) s).changes_made = false ∧
    ∀ e ∈ (run_auto_migration dbUrlOk (noFailEnv dv) s).events,
      isSchemaChange e = false := by
  have hurl : get_database_url dbUrlOk = some "postgresql://localhost/skillstown" := rfl
  have hne : ¬ ("postgresql://localhost/skillstown" = "") := by decide
  have hc : (noFailEnv dv).connectFails = false := rfl
  have hnoop := runPlan_noop (noFailEnv dv) migrationPlan ⟨s, s⟩
    (fun st hst => stepDone_of_upToDate h st hst)
  refine ⟨?_, ?_, ?_, ?_⟩
  · simp only [run_auto_migration_eq dbUrlOk (noFailEnv dv) s _ hurl hne hc]
  · simp only [run_auto_migration_eq dbUrlOk (noFailEnv dv) s _ hurl hne hc]
    exact hnoop.1
  · simp only [run_auto_migration_eq dbUrlOk (noFailEnv dv) s _ hurl hne hc]
    exact hnoop.2.1
  · intro e he
    simp only [run_auto_migration_eq dbUrlOk (noFailEnv dv) s _ hurl hne hc] at he
    exact hnoop.2.2 e he

set_option maxRecDepth 10000 in
/-- Witness for the C7 theorem at a concrete fully migrated schema. -/
theorem up_to_date_schema_noop_success_witness :
    upToDateB fullSchema = true ∧
    ((run_auto_migration dbUrlOk (noFailEnv noneDefaults) fullSchema).success = true ∧
     (run_auto_migration dbUrlOk (noFailEnv noneDefaults) fullSchema).schema = fullSchema ∧
     (run_auto_migration dbUrlOk (noFailEnv noneDefaults) fullSchema).changes_made = false ∧
     ∀ e ∈ (run_auto_migration dbUrlOk (noFailEnv noneDefaults) fullSchema).events,
       isSchemaChange e = false) :=
  ⟨by decide, up_to_date_schema_noop_success noneDefaults fullSchema (by decide)⟩

/-- C8: Schema preservation. A column that already exists is never
removed or modified: `check_and_add_column` on an existing column returns
`False` without executing any statement and leaves the schema untouched,
and across a whole run the column list of every pre-existing table is a
prefix of its final column list — every existing column survives with its
original type clause, and only additive `ADD COLUMN` statements extend
it. -/
theorem existing_columns_never_modified :
    (∀ (env : DbEnv) (s : Schema) (t c d : String),
        c ∈ getColumnNames s t → check_and_add_column env s t c d = ⟨false, s, []⟩) ∧
    (∀ (environ : Option String) (env : DbEnv) (s : Schema) (n : String) (T : DbTable),
        getTable s n = some T →
        ∃ T', getTable (run_auto_migration environ env s).schema n = some T' ∧
          T.cols <+: T'.cols) := by
  constructor
  · intro env s t c d hc
    have hmem : t ∈ tableNames s := by
      unfold getColumnNames at hc
      cases hT : getTable s t with
      | none =>
        rw [hT] at hc
        exact absurd hc (List.not_mem_nil c)
      | some T => exact mem_tableNames_iff.mpr ⟨T, hT⟩
    unfold check_and_add_column
    rw [if_pos hmem, if_pos hc]
  · intro environ env s n T hT
    obtain ⟨T', hT', hev⟩ := run_auto_migration_evol environ env s hT
    exact ⟨T', hT', hev.cols_prefix⟩

/-- Witness for the C8 theorem at concrete inputs. -/
theorem existing_columns_never_modified_witness :
    check_and_add_column (noFailEnv noneDefaults) [studentsTable] "students" "id" "TEXT"
      = ⟨false, [studentsTable], []⟩ ∧
    ∃ T', getTable (run_auto_migration dbUrlOk (noFailEnv noneDefaults)
        [studentsTable]).schema "students" = some T' ∧
      studentsTable.cols <+: T'.cols :=
  ⟨existing_columns_never_modified.1 (noFailEnv noneDefaults) [studentsTable]
      "students" "id" "TEXT" (by decide),
   existing_columns_never_modified.2 dbUrlOk (noFailEnv noneDefaults) [studentsTable]
      "students" studentsTable rfl⟩

/-- C9: when the `DATABASE_URL` environment variable is unset,
`get_database_url` returns `None` and `run_auto_migration` returns
`False` with the database untouched: for every engine behaviour and every
schema, the result is exactly "failure, schema unchanged, nothing
committed, no statement executed, no change reported". -/
theorem no_database_url_returns_false :
    get_database_url none = none ∧
    ∀ (env : DbEnv) (s : Schema),
      run_auto_migration none env s = ⟨false, s, s, [], false⟩ :=
  ⟨rfl, fun _ _ => rfl⟩

/-- C10 counterexample: Python's `str.replace` replaces every occurrence,
not only the prefix: on `postgres://xpostgres://y` the code returns
`postgresql://xpostgresql://y`, not the prefix-only rewrite
`postgresql://xpostgres://y` the claim describes. -/
theorem url_replace_prefix_only_cex :
    get_database_url (some "postgres://xpostgres://y")
        ≠ some "postgresql://xpostgres://y" ∧
    get_database_url (some "postgres://xpostgres://y")
        = some "postgresql://xpostgresql://y" := by
  refine ⟨by decide, by decide⟩

/-- C10 amended: a value that does not start with `postgres://` is
returned unchanged; a value that does start with `postgres://` has that
prefix replaced by `postgresql://` and, in the remainder, every further
occurrence of `postgres://` replaced as well (Python `str.replace`
semantics). -/
theorem get_database_url_replaces_all (u : String) :
    (pyStartsWith u "postgres://" = false → get_database_url (some u) = some u) ∧
    (pyStartsWith u "postgres://" = true →
      ∃ rest : List Char, u.data = "postgres://".data ++ rest ∧
        get_database_url (some u)
          = some ⟨"postgresql://".data
              ++ pyReplaceAux "postgres://".data "postgresql://".data
                  rest.length rest⟩) :=
  get_database_url_spec u

/-- Witness for the amended C10 theorem at concrete inputs. -/
theorem get_database_url_replaces_all_witness :
    get_database_url (some "mysql://db") = some "mysql://db" ∧
    ∃ rest : List Char, ("postgres://db").data = "postgres://".data ++ rest ∧
      get_database_url (some "postgres://db")
        = some ⟨"postgresql://".data
            ++ pyReplaceAux "postgres://".data "postgresql://".data rest.length rest⟩ :=
  ⟨(get_database_url_replaces_all "mysql://db").1 (by decide),
   (get_database_url_replaces_all "postgres://db").2 (by decide)⟩

end SkillsTown
